import Mathlib

/-!
Verification of jamesdsp `src/audio/base/Utils.h`: numeric text conversion and container
helpers.

A shallow embedding of `namespace util` of `Utils.h`.

* `concat_vectors` is embedded on lists.
* `str_to_num` is embedded over an explicit model of `std::istringstream`: the unread
  characters plus the `eofbit` and `failbit` state flags.  The stream operations it calls
  (`std::ws`, `peek`, `ignore`, `operator>>`) follow ISO C++ [istream] and, for the arithmetic
  extraction, the three stages of `std::num_get::do_get` ([facet.num.get.virtuals]).
* `to_string` is embedded over a model of `std::to_chars` ([charconv.to.chars]) writing into
  a buffer of the size computed in the source.
* `str_to_num` for a floating-point target is `str_to_num_fp`: the same stream operations
  with the floating-point extraction, whose conversion to `float` or `double` rounds the
  exact decimal value to nearest, ties to even.

Values of a machine integer type are integers `Int` constrained by `IntType.inRange`.
-/

namespace util

/-! ## Integer target types -/

/-- The fixed-width integer types a template parameter `T` may be instantiated with. -/
inductive IntType where
  | int8 | uint8 | int16 | uint16 | int32 | uint32 | int64 | uint64
  deriving DecidableEq, Repr

namespace IntType

/-- Width of the type in bits. -/
def bits : IntType → Nat
  | int8 => 8 | uint8 => 8
  | int16 => 16 | uint16 => 16
  | int32 => 32 | uint32 => 32
  | int64 => 64 | uint64 => 64

/-- Signedness of the type. -/
def isSigned : IntType → Bool
  | int8 => true | int16 => true | int32 => true | int64 => true
  | uint8 => false | uint16 => false | uint32 => false | uint64 => false

/-- The character types: `int8_t` is `signed char` and `uint8_t` is `unsigned char`.  For these
`operator>>` is the character extractor, not the arithmetic one. -/
def isChar : IntType → Bool
  | int8 => true | uint8 => true
  | _ => false

/-- Value of `std::numeric_limits<T>::min()`. -/
def minVal (T : IntType) : Int :=
  if T.isSigned then -((2 : Int) ^ (T.bits - 1)) else 0

/-- Value of `std::numeric_limits<T>::max()`. -/
def maxVal (T : IntType) : Int :=
  if T.isSigned then (2 : Int) ^ (T.bits - 1) - 1 else (2 : Int) ^ T.bits - 1

/-- The integer `v` is a value of type `T`. -/
def inRange (T : IntType) (v : Int) : Prop := T.minVal ≤ v ∧ v ≤ T.maxVal

instance (T : IntType) (v : Int) : Decidable (T.inRange v) := by
  unfold inRange; infer_instance

/-- Value of `std::numeric_limits<T>::digits`: the number of value bits. -/
def digits (T : IntType) : Nat := if T.isSigned then T.bits - 1 else T.bits

/-- Value of `std::numeric_limits<T>::digits10`, that is `⌊digits · log10 2⌋`, computed as the
library does (`digits * 643 / 2136`). -/
def digits10 (T : IntType) : Nat := T.digits * 643 / 2136

/-- Value of `std::numeric_limits<T>::max_digits10`, which is `0` for every integer type. -/
def max_digits10 (_T : IntType) : Nat := 0

end IntType

/-! ## Characters -/

/-- Classification `std::isspace` of the classic locale: space, `\t`, `\n`, `\v`, `\f`, `\r`. -/
def isspace (c : Char) : Bool :=
  c.toNat == 32 || (9 ≤ c.toNat && c.toNat ≤ 13)

/-- Classification `std::isdigit`: the ten decimal digits. -/
def isdigit (c : Char) : Bool :=
  48 ≤ c.toNat && c.toNat ≤ 57

/-- The character of the decimal digit `d`. -/
def digitChar (d : Nat) : Char := Char.ofNat (48 + d)

/-- The value a character has when stored in an object of a character type `T`: the byte
itself for `unsigned char`, the byte read as two's complement for `signed char`. -/
def charValue (T : IntType) (c : Char) : Int :=
  let b := c.toNat % 256
  if T.isSigned && 128 ≤ b then (b : Int) - 256 else (b : Int)

/-! ## Locale -/

/-- The part of a `std::locale` that integer extraction consults: the `numpunct` facet. -/
structure locale where
  /-- Result of `numpunct::thousands_sep()`. -/
  thousands_sep : Char
  /-- Result of `numpunct::grouping()`: the group sizes from the right, the last one repeating. -/
  grouping : List Nat
  /-- Result of `numpunct::decimal_point()`. -/
  decimal_point : Char
  deriving DecidableEq, Repr

/-- The classic "C" locale, the global locale of a program that never calls
`std::locale::global`: no digit grouping. -/
def locale.classic : locale := ⟨',', [], '.'⟩

/-- A locale that groups digits by three with a comma, as `en_US` does. -/
def locale.en_US : locale := ⟨',', [3], '.'⟩

/-- Whether digit grouping is in use: the first element of `numpunct::grouping()` is a
positive group size below `CHAR_MAX`. -/
def locale.use_grouping (loc : locale) : Bool :=
  match loc.grouping with
  | [] => false
  | g :: _ => 0 < g && g < 127

/-- Stage 2 of `num_get::do_get`: `discard` is set when the character is the thousands
separator and grouping is in use. -/
def locale.discard (loc : locale) (c : Char) : Bool :=
  c == loc.thousands_sep && loc.use_grouping

/-! ## `std::istringstream` -/

/-- State of a `std::istringstream`: the characters not yet read and the two state flags
that the operations used here can set. -/
structure istringstream where
  /-- Characters of the get area that have not been extracted. -/
  buf : List Char
  /-- Flag `std::ios_base::eofbit`. -/
  eofbit : Bool
  /-- Flag `std::ios_base::failbit`. -/
  failbit : Bool
  deriving DecidableEq, Repr

namespace istringstream

/-- Constructor `std::istringstream iss(str)`. -/
def ofString (str : List Char) : istringstream := ⟨str, false, false⟩

/-- Member `good()`: no state flag is set. -/
def good (iss : istringstream) : Bool := !iss.eofbit && !iss.failbit

/-- Member `fail()`, which is what `operator!` tests. -/
def fail (iss : istringstream) : Bool := iss.failbit

/-- Manipulator `iss >> std::ws`: an unformatted input function that extracts whitespace and
sets `eofbit` (not `failbit`) when it reaches the end of the sequence. -/
def ws (iss : istringstream) : istringstream :=
  if iss.good then
    let rest := iss.buf.dropWhile isspace
    { buf := rest, eofbit := rest.isEmpty, failbit := iss.failbit }
  else { iss with failbit := true }

/-- Member `peek()`: the next character without extracting it, or end-of-file (`none`).  When
the stream is not `good()` the sentry sets `failbit` and end-of-file is returned. -/
def peek (iss : istringstream) : Option Char × istringstream :=
  if iss.good then
    match iss.buf with
    | [] => (none, { iss with eofbit := true })
    | c :: _ => (some c, iss)
  else (none, { iss with failbit := true })

/-- Member `ignore()` with its default arguments: extract and drop one character. -/
def ignore (iss : istringstream) : istringstream :=
  if iss.good then
    match iss.buf with
    | [] => { iss with eofbit := true }
    | _ :: rest => { iss with buf := rest }
  else { iss with failbit := true }

/-- The sentry of a formatted input function (`skipws` is set by default): fails, setting
`failbit`, when the stream is not `good()`; otherwise skips whitespace and fails, setting
`eofbit` and `failbit`, when no character is left. -/
def sentry (iss : istringstream) : Bool × istringstream :=
  if iss.good then
    let rest := iss.buf.dropWhile isspace
    if rest.isEmpty then (false, { buf := [], eofbit := true, failbit := true })
    else (true, { iss with buf := rest })
  else (false, { iss with failbit := true })

end istringstream

/-! ## `std::num_get` for integers -/

/-- Result of stage 2 of `num_get::do_get`. -/
structure Stage2 where
  /-- The accumulated characters (the field). -/
  field : List Char
  /-- Remembered positions of discarded separators, latest first: the length of the field
  when the separator was met. -/
  seps : List Nat
  /-- Stage 2 ended because the input was exhausted. -/
  eof : Bool
  /-- The characters left in the stream. -/
  rest : List Char
  deriving DecidableEq, Repr

/-- Whether `c` is allowed as the next character of a field of the conversion `%d`/`%u`
(the stream's `basefield` is `dec`): a sign at the start, a decimal digit anywhere. -/
def allowed (c : Char) (field : List Char) : Bool :=
  isdigit c || ((c == '+' || c == '-') && field.isEmpty)

/-- Decimal value of a sequence of digit characters. -/
def digitsValue (ds : List Char) : Nat :=
  ds.foldl (fun acc c => 10 * acc + (c.toNat - 48)) 0

/-- Split a field into its sign (`true` for `-`) and the characters after the sign. -/
def splitSign : List Char → Bool × List Char
  | '-' :: ds => (true, ds)
  | '+' :: ds => (false, ds)
  | ds => (false, ds)

/-- Number of digits accumulated since the last discarded separator, or since the start of
the field when there is none. -/
def digitsSinceSep (field : List Char) (seps : List Nat) : Nat :=
  match seps with
  | [] => (splitSign field).2.length
  | p :: _ => field.length - p

/-- Stage 2 of `num_get::do_get`: characters are taken while they are discarded separators
or allowed in the field.  A separator with no digit since the start or since the previous
separator ends the extraction with nothing to convert (the field is emptied, so that stage 3
stores zero and assigns `failbit`); the decimal point of the locale ends the field. -/
def stage2 (loc : locale) : List Char → List Char → List Nat → Stage2
  | [], field, seps => ⟨field, seps, true, []⟩
  | c :: rest, field, seps =>
    if loc.discard c then
      if 0 < digitsSinceSep field seps then stage2 loc rest field (field.length :: seps)
      else ⟨[], seps, false, c :: rest⟩
    else if c == loc.decimal_point then ⟨field, seps, false, c :: rest⟩
    else if allowed c field then stage2 loc rest (field ++ [c]) seps
    else ⟨field, seps, false, c :: rest⟩

/-- Stage 3 of `num_get::do_get`, the conversion of the field by `strtoll`/`strtoull`: the
value to store and whether `failbit` is assigned.  Zero is stored when the field is not
converted entirely; the nearest bound when the value is not representable.  A negative
field converted to an unsigned type is negated in that type, as `strtoull` does. -/
def stage3 (T : IntType) (field : List Char) : Int × Bool :=
  let (neg, ds) := splitSign field
  if ds.isEmpty || !ds.all isdigit then (0, true)
  else
    let m : Int := (digitsValue ds : Int)
    if T.isSigned then
      let v := if neg then -m else m
      if v < T.minVal then (T.minVal, true)
      else if T.maxVal < v then (T.maxVal, true)
      else (v, false)
    else if T.maxVal < m then (T.maxVal, true)
    else ((if neg then ((2 : Int) ^ T.bits - m) % (2 : Int) ^ T.bits else m), false)

/-- Sizes of the digit groups, rightmost first, given the field length, the separator
positions (latest first) and the position where the digits start. -/
def groupSizes (len : Nat) : List Nat → Nat → List Nat
  | [], start => [len - start]
  | p :: ps, start => (len - p) :: groupSizes p ps start

/-- Consistency of the group sizes (rightmost first) with `numpunct::grouping()`: every group
but the leftmost has exactly the required size, and the leftmost is not larger than the
required size when that size is positive and below `CHAR_MAX`. -/
def verify_grouping : List Nat → List Nat → Bool
  | _, [] => true
  | [], _ :: _ => true
  | g :: _, [s] => !(0 < g && g < 127) || s ≤ g
  | g :: gs, s :: s2 :: ss =>
    s == g && verify_grouping (if gs.isEmpty then [g] else gs) (s2 :: ss)

/-- The grouping check of stage 3: made only when separators were discarded. -/
def groupingOk (loc : locale) (field : List Char) (seps : List Nat) : Bool :=
  seps.isEmpty ||
    verify_grouping loc.grouping
      (groupSizes field.length seps (field.length - (splitSign field).2.length))

/-- Result of `num_get::get`. -/
structure NumGet where
  /-- The value stored in the target. -/
  val : Int
  /-- Flag `failbit` of the error state. -/
  fail : Bool
  /-- Flag `eofbit` of the error state. -/
  eof : Bool
  /-- The characters left in the stream. -/
  rest : List Char
  deriving DecidableEq, Repr

/-- Member `num_get::get` for an integer target: stages 2 and 3. -/
def num_get (loc : locale) (T : IntType) (buf : List Char) : NumGet :=
  let s := stage2 loc buf [] []
  let r := stage3 T s.field
  { val := r.1, fail := r.2 || !groupingOk loc s.field s.seps, eof := s.eof, rest := s.rest }

/-- Arithmetic extractor `iss >> num` for `short`, `int`, `long`, `long long` and their
unsigned counterparts: the stream after the call and the value of `num`. -/
def extract_num (loc : locale) (T : IntType) (iss : istringstream) (num : Int) :
    istringstream × Int :=
  let (ok, s) := iss.sentry
  if ok then
    let r := num_get loc T s.buf
    ({ buf := r.rest, eofbit := s.eofbit || r.eof, failbit := s.failbit || r.fail }, r.val)
  else (s, num)

/-- Character extractor `iss >> num` for `signed char` and `unsigned char`: after the sentry
one character is extracted and stored. -/
def extract_char (T : IntType) (iss : istringstream) (num : Int) : istringstream × Int :=
  let (ok, s) := iss.sentry
  if ok then
    match s.buf with
    | [] => ({ s with eofbit := true, failbit := true }, num)
    | c :: rest => ({ s with buf := rest }, charValue T c)
  else (s, num)

/-- Overload resolution of `iss >> num` on the type `T` of `num`. -/
def extract (loc : locale) (T : IntType) (iss : istringstream) (num : Int) :
    istringstream × Int :=
  if T.isChar then extract_char T iss num else extract_num loc T iss num

/-! ## `str_to_num` -/

/-- Function `util::str_to_num<T>(str, num)`: the returned flag and the value of `num` after
the call.  `loc` is the global locale, with which the string stream is constructed, and `num`
is the value of the output parameter before the call. -/
def str_to_num (loc : locale) (T : IntType) (str : List Char) (num : Int) : Bool × Int :=
  let iss := istringstream.ofString str
  let iss := iss.ws
  let p := iss.peek
  let iss := if p.1 == some '+' then p.2.ignore else p.2
  let r := extract loc T iss num
  if r.1.fail then (false, r.2) else (true, r.2)

/-! ## `to_string` -/

/-- The decimal digits of `n`, most significant first, produced starting with the least
significant one as `std::to_chars` does; `fuel` bounds the number of digits. -/
def to_chars_digits : Nat → Nat → List Char → List Char
  | 0, _, acc => acc
  | fuel + 1, n, acc =>
    if n < 10 then digitChar n :: acc
    else to_chars_digits fuel (n / 10) (digitChar (n % 10) :: acc)

/-- The characters `std::to_chars` produces for `value` in base 10: a minus sign when the
value is negative, then the digits of its magnitude without leading zeros. -/
def to_chars_text (value : Int) : List Char :=
  (if value < 0 then ['-'] else []) ++ to_chars_digits (value.natAbs + 1) value.natAbs []

/-- Function `std::to_chars(first, first + size, value)`: the characters written, or `none`
for `errc::value_too_large` when they do not fit in the `size` characters of the buffer. -/
def to_chars (size : Nat) (value : Int) : Option (List Char) :=
  let s := to_chars_text value
  if s.length ≤ size then some s else none

/-- The buffer length `max` computed in `util::to_string<T>`. -/
def to_string_max (T : IntType) : Nat := T.digits10 + T.max_digits10 + 10

/-- Function `util::to_string<T>(num, def)`; the parameter `def` is named `dflt` here. -/
def to_string (T : IntType) (num : Int) (dflt : List Char) : List Char :=
  match to_chars (to_string_max T) num with
  | some s => s
  | none => dflt

/-! ## `concat_vectors` -/

/-- Function `util::concat_vectors(v1, v2)`: the smaller vector is inserted at the end of the
larger one. -/
def concat_vectors {α : Type} (v1 v2 : List α) : List α :=
  if v1.length > v2.length then v1 ++ v2 else v2 ++ v1

/-! ## Level conversion -/

/-- Values of an IEEE 754 binary floating-point type: NaN, the two infinities and the finite
values, each finite value given by the rational number it denotes. -/
inductive FP where
  | nan
  | neg_inf
  | finite (q : ℚ)
  | pos_inf
  deriving DecidableEq

/-- Comparison `a < b` of floating-point values: false whenever an operand is NaN. -/
def FP.lt : FP → FP → Bool
  | .nan, _ => false
  | _, .nan => false
  | .neg_inf, .neg_inf => false
  | .neg_inf, _ => true
  | _, .neg_inf => false
  | .pos_inf, _ => false
  | .finite _, .pos_inf => true
  | .finite a, .finite b => decide (a < b)

/-- Constant `minimum_db_level = -100.0F`. -/
def minimum_db_level : FP := .finite (-100)

/-- Constant `minimum_db_d_level = -100.0`. -/
def minimum_db_d_level : FP := .finite (-100)

/-- Constant `minimum_linear_level = 0.00001F`: the `float` nearest to `10⁻⁵`, which is
`10995116 · 2⁻⁴⁰`. -/
def minimum_linear_level : FP := .finite (10995116 / 2 ^ 40)

/-- Constant `minimum_linear_d_level = 0.00001`: the `double` nearest to `10⁻⁵`, which is
`5902958103587057 · 2⁻⁶⁹`. -/
def minimum_linear_d_level : FP := .finite (5902958103587057 / 2 ^ 69)

/-- Modelled from the spec: the body of `util::linear_to_db(const float&)`, which `Utils.h`
only declares.  The spec: "if `amp` is less than the minimum linear level floor, return the
minimum db level floor; otherwise return `20 * log10(amp)`".  The library logarithm `log10f`
and the rounded product `mulf` of `float` are parameters. -/
def linear_to_db (log10f : FP → FP) (mulf : FP → FP → FP) (amp : FP) : FP :=
  if amp.lt minimum_linear_level then minimum_db_level
  else mulf (.finite 20) (log10f amp)

/-- Modelled from the spec: the body of `util::linear_to_db(const double&)`, which `Utils.h`
only declares; the same formula at `double` precision, over the `double` constants. -/
def linear_to_db_d (log10 : FP → FP) (mul : FP → FP → FP) (amp : FP) : FP :=
  if amp.lt minimum_linear_d_level then minimum_db_d_level
  else mul (.finite 20) (log10 amp)

/-! ## Floating-point targets of `str_to_num` -/

/-- Negation of a floating-point value. -/
def FP.neg : FP → FP
  | .nan => .nan
  | .neg_inf => .pos_inf
  | .finite q => .finite (-q)
  | .pos_inf => .neg_inf

/-- A floating-point target type of `str_to_num` (`float` or `double`), as far as the
extraction consults it. -/
structure FloatType where
  /-- The conversion made by `strtof` / `strtod`: the value of the type for a decimal numeral
  whose exact value is `num / den`, negated when the first argument is `true`; an infinity
  when the magnitude is beyond the largest finite value of the type. -/
  convert : Bool → Nat → Nat → FP
  /-- Value of `std::numeric_limits<T>::max()`. -/
  max : FP

/-- Number of binary digits of `n`; `fuel` bounds the count. -/
def bitLength : Nat → Nat → Nat
  | 0, _ => 0
  | fuel + 1, n => if n = 0 then 0 else bitLength fuel (n / 2) + 1

/-- Whether `num / den ≥ 2 ^ k`. -/
def geTwoPow (num den : Nat) (k : Int) : Bool :=
  if 0 ≤ k then decide (den * 2 ^ k.toNat ≤ num) else decide (den ≤ num * 2 ^ (-k).toNat)

/-- Rounding to nearest, ties to even, of the rational `num / den` to the binary format with
`p` significand bits and exponents from `emin` to `emax`: the significand `m` and the
exponent `s` of the result `m · 2 ^ s`, or `none` when the result overflows. -/
def roundBinary (p : Nat) (emin emax : Int) (num den : Nat) : Option (Nat × Int) :=
  if num = 0 then some (0, 0)
  else
    let k : Int := (bitLength num num : Int) - (bitLength den den : Int)
    let e : Int := if geTwoPow num den k then k else k - 1
    let e1 : Int := if e < emin then emin else e
    let s : Int := e1 - ((p : Int) - 1)
    let n1 : Nat := if 0 ≤ s then num else num * 2 ^ (-s).toNat
    let d1 : Nat := if 0 ≤ s then den * 2 ^ s.toNat else den
    let m0 : Nat := n1 / d1
    let r : Nat := n1 % d1
    let m : Nat :=
      if 2 * r < d1 then m0 else if d1 < 2 * r then m0 + 1
      else if m0 % 2 = 0 then m0 else m0 + 1
    if emax < e1 then none
    else if e1 = emax ∧ 2 ^ p ≤ m then none
    else some (m, s)

/-- The correctly rounded conversion of the exact value `num / den`, negated when `neg`, to
the binary format with `p` significand bits and exponents from `emin` to `emax`. -/
def ieeeConvert (p : Nat) (emin emax : Int) (neg : Bool) (num den : Nat) : FP :=
  match roundBinary p emin emax num den with
  | none => if neg then .neg_inf else .pos_inf
  | some (m, s) => .finite ((if neg then -1 else 1) * (m : ℚ) * (2 : ℚ) ^ s)

/-- The type `float`: IEEE 754 binary32. -/
def FloatType.float : FloatType :=
  ⟨ieeeConvert 24 (-126) 127, .finite ((2 ^ 24 - 1) * 2 ^ 104)⟩

/-- The type `double`: IEEE 754 binary64. -/
def FloatType.double : FloatType :=
  ⟨ieeeConvert 53 (-1022) 1023, .finite ((2 ^ 53 - 1) * 2 ^ 971)⟩

/-- What the floating-point stage 2 of `num_get::do_get` has gathered. -/
structure FloatScan where
  /-- The accumulated characters, with `.` for the decimal point and `e` for the exponent
  mark. -/
  xtrc : List Char
  /-- A digit of the mantissa was met. -/
  found_mantissa : Bool
  /-- The decimal point was met. -/
  found_dec : Bool
  /-- The exponent mark was met. -/
  found_sci : Bool
  /-- Number of digits since the start or the last separator. -/
  sep_pos : Nat
  /-- Sizes of the digit groups closed so far, latest first. -/
  found_grouping : List Nat
  deriving DecidableEq, Repr

/-- The places of the floating-point stage 2: before the sign, among the leading zeros, in
the body of the number, and right after the exponent mark. -/
inductive FloatPhase where
  | sign | zeros | body | exponent_sign
  deriving DecidableEq, Repr

/-- Outcome of one character in the floating-point stage 2: the character is taken and the
scan goes on, or the scan ends in front of it. -/
inductive FloatStep where
  | next (ph : FloatPhase) (st : FloatScan)
  | stop (st : FloatScan)
  deriving DecidableEq, Repr

/-- One character in the body of the number: a separator (only before the decimal point and
the exponent, and only after a digit; otherwise the scan ends, with the accumulated
characters dropped when no digit precedes the separator), the decimal point (once, before
the exponent), a digit, or the exponent mark (once, after a mantissa digit). -/
def float_body (loc : locale) (st : FloatScan) (c : Char) : FloatStep :=
  if loc.discard c then
    if !st.found_dec && !st.found_sci then
      if 0 < st.sep_pos then
        .next .body { st with found_grouping := st.sep_pos :: st.found_grouping, sep_pos := 0 }
      else .stop { st with xtrc := [] }
    else .stop st
  else if c == loc.decimal_point then
    if !st.found_dec && !st.found_sci then
      .next .body { st with
        xtrc := st.xtrc ++ ['.'], found_dec := true,
        found_grouping :=
          if st.found_grouping.isEmpty then [] else st.sep_pos :: st.found_grouping }
    else .stop st
  else if isdigit c then
    .next .body { st with
      xtrc := st.xtrc ++ [c], found_mantissa := true, sep_pos := st.sep_pos + 1 }
  else if (c == 'e' || c == 'E') && !st.found_sci && st.found_mantissa then
    .next .exponent_sign { st with
      xtrc := st.xtrc ++ ['e'], found_sci := true,
      found_grouping :=
        if st.found_grouping.isEmpty || st.found_dec then st.found_grouping
        else st.sep_pos :: st.found_grouping }
  else .stop st

/-- One character among the leading zeros: a zero is counted, and only the first one is
accumulated; anything else is handled as in the body of the number. -/
def float_zeros (loc : locale) (st : FloatScan) (c : Char) : FloatStep :=
  if c == '0' && !loc.discard c && !(c == loc.decimal_point) then
    .next .zeros { st with
      xtrc := if st.found_mantissa then st.xtrc else st.xtrc ++ ['0'],
      found_mantissa := true, sep_pos := st.sep_pos + 1 }
  else float_body loc st c

/-- The first character: a sign is accumulated; anything else is handled as a leading
zero. -/
def float_sign (loc : locale) (st : FloatScan) (c : Char) : FloatStep :=
  if (c == '+' || c == '-') && !loc.discard c && !(c == loc.decimal_point) then
    .next .zeros { st with xtrc := st.xtrc ++ [c] }
  else float_zeros loc st c

/-- The character after the exponent mark: a sign is accumulated; anything else is handled
as in the body of the number. -/
def float_exponent_sign (loc : locale) (st : FloatScan) (c : Char) : FloatStep :=
  if (c == '+' || c == '-') && !loc.discard c && !(c == loc.decimal_point) then
    .next .body { st with xtrc := st.xtrc ++ [c] }
  else float_body loc st c

/-- One character of the floating-point stage 2. -/
def float_step (loc : locale) : FloatPhase → FloatScan → Char → FloatStep
  | .sign => float_sign loc
  | .zeros => float_zeros loc
  | .body => float_body loc
  | .exponent_sign => float_exponent_sign loc

/-- Result of the floating-point stage 2. -/
structure FloatField where
  /-- What was gathered. -/
  scan : FloatScan
  /-- Stage 2 ended because the input was exhausted. -/
  eof : Bool
  /-- The characters left in the stream. -/
  rest : List Char
  deriving DecidableEq, Repr

/-- Stage 2 of `num_get::do_get` for a floating-point target: characters are taken until
one ends the scan. -/
def float_scan (loc : locale) : FloatPhase → FloatScan → List Char → FloatField
  | _, st, [] => ⟨st, true, []⟩
  | ph, st, c :: rest =>
    match float_step loc ph st c with
    | .next ph1 st1 => float_scan loc ph1 st1 rest
    | .stop st1 => ⟨st1, false, c :: rest⟩

/-- The grouping check of the floating-point extraction: made only when separators were
met; the digits before the decimal point or exponent form the last group. -/
def float_grouping_ok (loc : locale) (st : FloatScan) : Bool :=
  st.found_grouping.isEmpty ||
    verify_grouping loc.grouping
      (if !st.found_dec && !st.found_sci then st.sep_pos :: st.found_grouping
       else st.found_grouping)

/-- The exact value of a decimal numeral: `num / den`, negated when `neg`. -/
structure Decimal where
  /-- The numeral has a minus sign. -/
  neg : Bool
  /-- Numerator of the magnitude. -/
  num : Nat
  /-- Denominator of the magnitude, a power of ten. -/
  den : Nat
  deriving DecidableEq, Repr

/-- The numeral `strtod` reads when it converts the whole text: an optional sign, digits
with an optional point (at least one digit), and optionally `e`, an optional sign and at
least one digit.  `none` when `strtod` would stop before the end of the text. -/
def parse_decimal (xtrc : List Char) : Option Decimal :=
  let body := (splitSign xtrc).2
  let ip := body.takeWhile isdigit
  let r1 := body.dropWhile isdigit
  let fp := match r1 with
    | '.' :: r => r.takeWhile isdigit
    | _ => []
  let r2 := match r1 with
    | '.' :: r => r.dropWhile isdigit
    | r => r
  if ip.isEmpty && fp.isEmpty then none
  else
    let mant := digitsValue (ip ++ fp)
    match r2 with
    | [] => some ⟨(splitSign xtrc).1, mant, 10 ^ fp.length⟩
    | 'e' :: r3 =>
      let eds := (splitSign r3).2
      if eds.isEmpty || !eds.all isdigit then none
      else if (splitSign r3).1 then
        some ⟨(splitSign xtrc).1, mant, 10 ^ (fp.length + digitsValue eds)⟩
      else some ⟨(splitSign xtrc).1, mant * 10 ^ digitsValue eds, 10 ^ fp.length⟩
    | _ => none

/-- Stage 3 of `num_get::do_get` for a floating-point target, the conversion of the
accumulated characters by `strtod`: the value to store and whether `failbit` is assigned.
Zero is stored when the text is not converted entirely; the largest finite value, with the
sign of the numeral, when the result is an infinity. -/
def stage3_float (F : FloatType) (xtrc : List Char) : FP × Bool :=
  match parse_decimal xtrc with
  | none => (.finite 0, true)
  | some d =>
    match F.convert d.neg d.num d.den with
    | .pos_inf => (F.max, true)
    | .neg_inf => (F.max.neg, true)
    | v => (v, false)

/-- Result of `num_get::get` for a floating-point target. -/
structure NumGetFloat where
  /-- The value stored in the target. -/
  val : FP
  /-- Flag `failbit` of the error state. -/
  fail : Bool
  /-- Flag `eofbit` of the error state. -/
  eof : Bool
  /-- The characters left in the stream. -/
  rest : List Char

/-- Member `num_get::get` for a floating-point target: stages 2 and 3. -/
def num_get_float (loc : locale) (F : FloatType) (buf : List Char) : NumGetFloat :=
  let s := float_scan loc .sign ⟨[], false, false, false, 0, []⟩ buf
  let r := stage3_float F s.scan.xtrc
  { val := r.1, fail := r.2 || !float_grouping_ok loc s.scan, eof := s.eof, rest := s.rest }

/-- Arithmetic extractor `iss >> num` for `float` and `double`: the stream after the call
and the value of `num`. -/
def extract_float (loc : locale) (F : FloatType) (iss : istringstream) (num : FP) :
    istringstream × FP :=
  let (ok, s) := iss.sentry
  if ok then
    let r := num_get_float loc F s.buf
    ({ buf := r.rest, eofbit := s.eofbit || r.eof, failbit := s.failbit || r.fail }, r.val)
  else (s, num)

/-- Function `util::str_to_num<T>(str, num)` for a floating-point `T`: the returned flag and
the value of `num` after the call.  `loc` is the global locale and `num` is the value of the
output parameter before the call. -/
def str_to_num_fp (loc : locale) (F : FloatType) (str : List Char) (num : FP) : Bool × FP :=
  let iss := istringstream.ofString str
  let iss := iss.ws
  let p := iss.peek
  let iss := if p.1 == some '+' then p.2.ignore else p.2
  let r := extract_float loc F iss num
  if r.1.fail then (false, r.2) else (true, r.2)

/-- The decimal value written in the literal `-100.0F` of `minimum_db_level`. -/
def minimum_db_level_decimal : ℚ := -100.0

/-- The decimal value written in the literal `-100.0` of `minimum_db_d_level`. -/
def minimum_db_d_level_decimal : ℚ := -100.0

/-- The decimal value written in the literal `0.00001F` of `minimum_linear_level`. -/
def minimum_linear_level_decimal : ℚ := 0.00001

/-- The decimal value written in the literal `0.00001` of `minimum_linear_d_level`. -/
def minimum_linear_d_level_decimal : ℚ := 0.00001

/-! ## `contains` -/

/-- Algorithm `std::find(first, last, value)` on a sequence: the position of the first
element that compares equal to `value`, or the length of the sequence (the end iterator) when
no element does.  `eq` is the `operator==` between an element and the value. -/
def find {α β : Type} (eq : α → β → Bool) : List α → β → Nat
  | [], _ => 0
  | x :: xs, e => if eq x e then 0 else find eq xs e + 1

/-- Function `util::contains(c, e)`: whether `std::find` stops before the end. -/
def contains {α β : Type} (eq : α → β → Bool) (c : List α) (e : β) : Bool :=
  find eq c e != c.length

/-! ## Helpers for stating the lemmas about `str_to_num` -/

/-- Helper: drop one leading `+`. -/
def skip_plus : List Char → List Char
  | '+' :: r => r
  | s => s

/-- Helper: the characters at which the extraction `iss >> num` starts: the text without
its leading whitespace, one `+` and the whitespace after it. -/
def extraction_start (str : List Char) : List Char :=
  (skip_plus (str.dropWhile isspace)).dropWhile isspace

/-! ## Evaluation of the embedding at concrete inputs -/

/-- Extraction into an `int` in the classic locale: `" +42"` parses to `42`. -/
theorem str_to_num_int32_plus42 :
    str_to_num locale.classic .int32 " +42".toList 7 = (true, 42) := by decide

/-- Sanity check of the formatter at the most negative 64-bit value. -/
theorem to_string_int64_min :
    to_string .int64 (-9223372036854775808) "0".toList = "-9223372036854775808".toList := by
  decide

/-! ## C10: `concat_vectors` keeps every element -/

/-- C10: for all vectors `v1` and `v2`, `concat_vectors v1 v2` has length `|v1| + |v2|`, is a
permutation of `v1` followed by `v2`, and every element occurs in it as often as in `v1` and
`v2` together. -/
theorem concat_vectors_length_perm {α : Type} [DecidableEq α] (v1 v2 : List α) :
    (concat_vectors v1 v2).length = v1.length + v2.length ∧
    (concat_vectors v1 v2).Perm (v1 ++ v2) ∧
    ∀ a : α, (concat_vectors v1 v2).count a = v1.count a + v2.count a := by
  unfold concat_vectors
  split
  · exact ⟨List.length_append _ _, List.Perm.refl _, fun a => List.count_append _ _ _⟩
  · refine ⟨?_, List.perm_append_comm, fun a => ?_⟩
    · rw [List.length_append, Nat.add_comm]
    · rw [List.count_append, Nat.add_comm]

/-! ## C9: the floor of `linear_to_db` -/

/-- C9: for every amplitude strictly below the linear floor, `linear_to_db` returns exactly
the decibel floor `-100`, at `float` precision (`minimum_linear_level`, `minimum_db_level`)
and at `double` precision (`minimum_linear_d_level`, `minimum_db_d_level`), whatever the
logarithm and product are. -/
theorem linear_to_db_below_floor (log10 : FP → FP) (mul : FP → FP → FP) (amp : FP) :
    (amp.lt minimum_linear_level = true →
      linear_to_db log10 mul amp = minimum_db_level ∧ minimum_db_level = .finite (-100)) ∧
    (amp.lt minimum_linear_d_level = true →
      linear_to_db_d log10 mul amp = minimum_db_d_level ∧
        minimum_db_d_level = .finite (-100)) := by
  refine ⟨fun h => ⟨?_, rfl⟩, fun h => ⟨?_, rfl⟩⟩
  · simp [linear_to_db, h]
  · simp [linear_to_db_d, h]

/-- Witness for C9 at the amplitude `0`, which is below both floors. -/
theorem linear_to_db_below_floor_witness :
    (FP.finite 0).lt minimum_linear_level = true ∧
    (FP.finite 0).lt minimum_linear_d_level = true ∧
    linear_to_db id (fun a _ => a) (.finite 0) = .finite (-100) ∧
    linear_to_db_d id (fun a _ => a) (.finite 0) = .finite (-100) := by
  have h1 : (FP.finite 0).lt minimum_linear_level = true := by
    simp [FP.lt, minimum_linear_level]
  have h2 : (FP.finite 0).lt minimum_linear_d_level = true := by
    simp [FP.lt, minimum_linear_d_level]
  have h := linear_to_db_below_floor id (fun a _ => a) (.finite 0)
  exact ⟨h1, h2, (h.1 h1).1.trans (h.1 h1).2, (h.2 h2).1.trans (h.2 h2).2⟩

/-! ## Decimal digits -/

theorem digitChar_toNat (d : Nat) (h : d < 10) : (digitChar d).toNat = 48 + d := by
  interval_cases d <;> decide

theorem isdigit_digitChar (d : Nat) (h : d < 10) : isdigit (digitChar d) = true := by
  interval_cases d <;> decide

theorem digitsValue_append (ds : List Char) (c : Char) :
    digitsValue (ds ++ [c]) = 10 * digitsValue ds + (c.toNat - 48) := by
  simp [digitsValue, List.foldl_append]

/-- The digit loop of `to_chars` produces the base-10 digits of `n`, most significant first
(the single digit `0` for zero), in front of what was already written. -/
theorem to_chars_digits_eq (fuel : Nat) : ∀ (n : Nat) (acc : List Char), n < fuel →
    to_chars_digits fuel n acc =
      (if n = 0 then [digitChar 0] else (Nat.digits 10 n).reverse.map digitChar) ++ acc := by
  induction fuel with
  | zero => intro n acc h; omega
  | succ fuel ih =>
    intro n acc h
    unfold to_chars_digits
    by_cases h10 : n < 10
    · rw [if_pos h10]
      by_cases h0 : n = 0
      · simp [h0]
      · rw [if_neg h0, Nat.digits_of_lt 10 n h0 h10]
        simp
    · rw [if_neg h10]
      have hpos : 0 < n := by omega
      have hdiv : n / 10 ≠ 0 := by omega
      rw [ih (n / 10) _ (by omega), if_neg hdiv, if_neg (by omega : ¬ n = 0)]
      rw [Nat.digits_def' (by norm_num : 1 < 10) hpos]
      simp

/-- The decimal numeral of `n`: its `to_chars` digits. -/
theorem to_chars_digits_self (n : Nat) :
    to_chars_digits (n + 1) n [] =
      if n = 0 then [digitChar 0] else (Nat.digits 10 n).reverse.map digitChar := by
  rw [to_chars_digits_eq (n + 1) n [] (Nat.lt_succ_self n), List.append_nil]

theorem digitsValue_map_digitChar (ds : List Nat) (h : ∀ d ∈ ds, d < 10) :
    digitsValue (ds.reverse.map digitChar) = Nat.ofDigits 10 ds := by
  induction ds with
  | nil => rfl
  | cons d ds ih =>
    have hd : d < 10 := h d (List.mem_cons_self _ _)
    have hds : ∀ e ∈ ds, e < 10 := fun e he => h e (List.mem_cons_of_mem _ he)
    rw [List.reverse_cons, List.map_append, List.map_cons, List.map_nil, digitsValue_append,
      ih hds, digitChar_toNat d hd, Nat.ofDigits_cons]
    simp
    omega

/-- Reading back the digits `to_chars` writes gives the number. -/
theorem digitsValue_to_chars_digits (n : Nat) :
    digitsValue (to_chars_digits (n + 1) n []) = n := by
  rw [to_chars_digits_self]
  split
  · next h => subst h; decide
  · rw [digitsValue_map_digitChar _ (fun d hd => Nat.digits_lt_base (by norm_num) hd),
      Nat.ofDigits_digits]

theorem all_isdigit_to_chars_digits (n : Nat) :
    ∀ c ∈ to_chars_digits (n + 1) n [], isdigit c = true := by
  rw [to_chars_digits_self]
  split
  · intro c hc
    simp at hc
    subst hc
    decide
  · intro c hc
    simp only [List.mem_map, List.mem_reverse] at hc
    obtain ⟨d, hd, rfl⟩ := hc
    exact isdigit_digitChar d (Nat.digits_lt_base (by norm_num) hd)

theorem to_chars_digits_ne_nil (n : Nat) : to_chars_digits (n + 1) n [] ≠ [] := by
  rw [to_chars_digits_self]
  split
  · simp
  · next h =>
    simp [Nat.digits_ne_nil_iff_ne_zero, h]

theorem to_chars_digits_length_le (n k : Nat) (hk : 0 < k) (h : n < 10 ^ k) :
    (to_chars_digits (n + 1) n []).length ≤ k := by
  rw [to_chars_digits_self]
  split
  · simpa using hk
  · rw [List.length_map, List.length_reverse]
    have h1 := Nat.base_pow_length_digits_le 10 n (by norm_num) ‹¬ n = 0›
    have h2 : 10 ^ (Nat.digits 10 n).length < 10 ^ (k + 1) := by
      rw [Nat.pow_succ]; omega
    have h3 := (Nat.pow_lt_pow_iff_right (by norm_num : 1 < 10)).1 h2
    omega

/-- No redundant leading zero: the first digit is `0` only in the numeral of zero. -/
theorem to_chars_digits_head (n : Nat) :
    (to_chars_digits (n + 1) n []).head? = some '0' → to_chars_digits (n + 1) n [] = ['0'] := by
  rw [to_chars_digits_self]
  split
  · intro _; rfl
  · next h =>
    intro hh
    exfalso
    have hne : Nat.digits 10 n ≠ [] := Nat.digits_ne_nil_iff_ne_zero.2 h
    have hlast := Nat.getLast_digit_ne_zero 10 h
    have hlt : (Nat.digits 10 n).getLast hne < 10 :=
      Nat.digits_lt_base (by norm_num) (List.getLast_mem hne)
    rw [List.head?_map, List.head?_reverse, List.getLast?_eq_getLast _ hne] at hh
    simp only [Option.map_some', Option.some.injEq] at hh
    have h2 := congrArg Char.toNat hh
    rw [digitChar_toNat _ hlt] at h2
    have : ('0' : Char).toNat = 48 := by decide
    omega

/-! ## `to_string` never falls back to the default text -/

theorem to_chars_text_length_le (v : Int) (k : Nat) (hk : 0 < k) (h : v.natAbs < 10 ^ k) :
    (to_chars_text v).length ≤ k + 1 := by
  have hd := to_chars_digits_length_le v.natAbs k hk h
  unfold to_chars_text
  rw [List.length_append]
  split
  · simp only [List.length_singleton]; omega
  · simp only [List.length_nil]; omega

/-- The numeral of a value of type `T` fits in the buffer of `to_string<T>`. -/
theorem to_chars_text_fits (T : IntType) (v : Int) (h : T.inRange v) :
    (to_chars_text v).length ≤ to_string_max T := by
  obtain ⟨h1, h2⟩ := h
  cases T
  case int8 =>
    have := to_chars_text_length_le v 3 (by norm_num) (by
      simp [IntType.minVal, IntType.maxVal, IntType.isSigned, IntType.bits] at h1 h2; omega)
    exact this.trans (by decide)
  case uint8 =>
    have := to_chars_text_length_le v 3 (by norm_num) (by
      simp [IntType.minVal, IntType.maxVal, IntType.isSigned, IntType.bits] at h1 h2; omega)
    exact this.trans (by decide)
  case int16 =>
    have := to_chars_text_length_le v 5 (by norm_num) (by
      simp [IntType.minVal, IntType.maxVal, IntType.isSigned, IntType.bits] at h1 h2; omega)
    exact this.trans (by decide)
  case uint16 =>
    have := to_chars_text_length_le v 5 (by norm_num) (by
      simp [IntType.minVal, IntType.maxVal, IntType.isSigned, IntType.bits] at h1 h2; omega)
    exact this.trans (by decide)
  case int32 =>
    have := to_chars_text_length_le v 10 (by norm_num) (by
      simp [IntType.minVal, IntType.maxVal, IntType.isSigned, IntType.bits] at h1 h2; omega)
    exact this.trans (by decide)
  case uint32 =>
    have := to_chars_text_length_le v 10 (by norm_num) (by
      simp [IntType.minVal, IntType.maxVal, IntType.isSigned, IntType.bits] at h1 h2; omega)
    exact this.trans (by decide)
  case int64 =>
    have := to_chars_text_length_le v 19 (by norm_num) (by
      simp [IntType.minVal, IntType.maxVal, IntType.isSigned, IntType.bits] at h1 h2; omega)
    exact this.trans (by decide)
  case uint64 =>
    have := to_chars_text_length_le v 20 (by norm_num) (by
      simp [IntType.minVal, IntType.maxVal, IntType.isSigned, IntType.bits] at h1 h2; omega)
    exact this.trans (by decide)

theorem to_chars_eq_some (T : IntType) (v : Int) (h : T.inRange v) :
    to_chars (to_string_max T) v = some (to_chars_text v) := by
  unfold to_chars
  simp only [to_chars_text_fits T v h, if_true]

/-- For a value of type `T`, `to_string<T>` returns what `to_chars` wrote. -/
theorem to_string_eq_text (T : IntType) (v : Int) (d : List Char) (h : T.inRange v) :
    to_string T v d = to_chars_text v := by
  unfold to_string
  rw [to_chars_eq_some T v h]

/-- C6: for every value `v` of every integer type `T`, the decimal text is no longer than the
buffer of `digits10 + max_digits10 + 10` characters, `to_chars` does not report an error, and
the result of `to_string` is the same for any two default texts. -/
theorem to_string_always_succeeds (T : IntType) (v : Int) (h : T.inRange v) :
    (to_chars_text v).length ≤ T.digits10 + T.max_digits10 + 10 ∧
    to_chars (T.digits10 + T.max_digits10 + 10) v = some (to_chars_text v) ∧
    ∀ d1 d2 : List Char, to_string T v d1 = to_string T v d2 :=
  ⟨to_chars_text_fits T v h, to_chars_eq_some T v h,
    fun d1 d2 => (to_string_eq_text T v d1 h).trans (to_string_eq_text T v d2 h).symm⟩

/-- Witness for C6 at the `int` value `-42`. -/
theorem to_string_always_succeeds_witness :
    IntType.int32.inRange (-42) ∧
    to_chars (IntType.int32.digits10 + IntType.int32.max_digits10 + 10) (-42) =
      some "-42".toList :=
  ⟨by decide, (to_string_always_succeeds .int32 (-42) (by decide)).2.1⟩

/-! ## `to_string` returns the canonical decimal numeral -/

/-- C7: for every value `v` of every integer type, `to_string` returns a minus sign exactly
when `v < 0`, followed by a nonempty sequence of decimal digits whose value is `|v|` and whose
first digit is `0` only when it is the single digit `0`; there is no other character, and
`to_string` of zero is `"0"`. -/
theorem to_string_canonical (T : IntType) (v : Int) (d : List Char) (h : T.inRange v) :
    ∃ ds : List Char,
      to_string T v d = (if v < 0 then ['-'] else []) ++ ds ∧
      ds ≠ [] ∧
      (∀ c ∈ ds, isdigit c = true) ∧
      digitsValue ds = v.natAbs ∧
      (ds.head? = some '0' → ds = ['0']) ∧
      (v = 0 → to_string T v d = ['0']) := by
  refine ⟨to_chars_digits (v.natAbs + 1) v.natAbs [], ?_, to_chars_digits_ne_nil _,
    all_isdigit_to_chars_digits _, digitsValue_to_chars_digits _, to_chars_digits_head _, ?_⟩
  · rw [to_string_eq_text T v d h]; rfl
  · intro h0
    rw [to_string_eq_text T v d h, h0]
    rfl

/-- Witness for C7 at the `int` value `-42`. -/
theorem to_string_canonical_witness :
    IntType.int32.inRange (-42) ∧
    ∃ ds : List Char,
      to_string .int32 (-42) ['0'] = (if (-42 : Int) < 0 then ['-'] else []) ++ ds ∧
      ds ≠ [] ∧
      (∀ c ∈ ds, isdigit c = true) ∧
      digitsValue ds = (-42 : Int).natAbs ∧
      (ds.head? = some '0' → ds = ['0']) ∧
      ((-42 : Int) = 0 → to_string .int32 (-42) ['0'] = ['0']) :=
  ⟨by decide, to_string_canonical .int32 (-42) ['0'] (by decide)⟩

/-! ## The stream operations of `str_to_num`, composed -/

/-- The result of `str_to_num` in terms of the text at which the extraction starts. -/
theorem str_to_num_eq (loc : locale) (T : IntType) (str : List Char) (num : Int) :
    str_to_num loc T str num =
      match extraction_start str with
      | [] => (false, num)
      | c :: r =>
        if T.isChar then (true, charValue T c)
        else (!(num_get loc T (c :: r)).fail, (num_get loc T (c :: r)).val) := by
  unfold str_to_num extraction_start
  cases hs : str.dropWhile isspace with
  | nil =>
    simp [istringstream.ofString, istringstream.ws, istringstream.good, hs, istringstream.peek,
      extract, extract_char, extract_num, istringstream.sentry, istringstream.fail, skip_plus]
  | cons a s =>
    by_cases ha : a = '+'
    · subst ha
      cases hr : s.dropWhile isspace with
      | nil =>
        simp [istringstream.ofString, istringstream.ws, istringstream.good, hs,
          istringstream.peek, istringstream.ignore, extract, extract_char, extract_num,
          istringstream.sentry, istringstream.fail, skip_plus, hr]
      | cons c r =>
        by_cases hT : T.isChar = true
        · simp [istringstream.ofString, istringstream.ws, istringstream.good, hs,
            istringstream.peek, istringstream.ignore, extract, extract_char, extract_num,
            istringstream.sentry, istringstream.fail, skip_plus, hr, hT]
        · simp [istringstream.ofString, istringstream.ws, istringstream.good, hs,
            istringstream.peek, istringstream.ignore, extract, extract_char, extract_num,
            istringstream.sentry, istringstream.fail, skip_plus, hr, hT]
          cases (num_get loc T (c :: r)).fail <;> simp
    · have hsp : skip_plus (a :: s) = a :: s := by
        unfold skip_plus
        split
        · next h => simp at h; exact absurd h.1 ha
        · rfl
      have hns : isspace a = false := by
        have := List.head_dropWhile_not isspace str (by rw [hs]; simp)
        simpa [hs] using this
      have hd : (a :: s).dropWhile isspace = a :: s := by
        simp [List.dropWhile_cons, hns]
      rw [hsp, hd]
      by_cases hT : T.isChar = true
      · simp [istringstream.ofString, istringstream.ws, istringstream.good, hs,
          istringstream.peek, istringstream.ignore, extract, extract_char, extract_num,
          istringstream.sentry, istringstream.fail, hd, hT, ha]
      · simp [istringstream.ofString, istringstream.ws, istringstream.good, hs,
          istringstream.peek, istringstream.ignore, extract, extract_char, extract_num,
          istringstream.sentry, istringstream.fail, hd, hT, ha]
        cases (num_get loc T (a :: s)).fail <;> simp

/-! ## Stage 2 and stage 3 of the extraction -/

theorem stage2_seps_of_no_grouping (loc : locale) (hg : loc.grouping = []) :
    ∀ (q field : List Char) (seps : List Nat), (stage2 loc q field seps).seps = seps := by
  intro q
  induction q with
  | nil => intro field seps; rfl
  | cons a q ih =>
    intro field seps
    have hd : loc.discard a = false := by simp [locale.discard, locale.use_grouping, hg]
    simp only [stage2, hd]
    by_cases hdp : (a == loc.decimal_point) = true
    · simp [hdp]
    · by_cases h2 : allowed a field = true
      · simp only [hdp, h2, if_true, if_false, Bool.false_eq_true]
        exact ih _ _
      · simp [hdp, h2]

/-- Digits that are neither separators nor the decimal point are all accumulated. -/
theorem stage2_digits (loc : locale) :
    ∀ (ds field : List Char) (seps : List Nat),
      (∀ c ∈ ds, isdigit c = true ∧ loc.discard c = false ∧
        (c == loc.decimal_point) = false) →
      stage2 loc ds field seps = ⟨field ++ ds, seps, true, []⟩ := by
  intro ds
  induction ds with
  | nil => intro field seps _; simp [stage2]
  | cons a ds ih =>
    intro field seps h
    have ha := h a (List.mem_cons_self _ _)
    have hi := ih (field ++ [a]) seps (fun c hc => h c (List.mem_cons_of_mem _ hc))
    simp only [stage2, ha.2.1, ha.2.2, allowed, ha.1, Bool.true_or, if_true, if_false,
      Bool.false_eq_true]
    rw [hi]
    simp

/-- When stage 3 assigns `failbit`, the stored value is zero or a bound of the type. -/
theorem stage3_fail_val (T : IntType) (field : List Char) (h : (stage3 T field).2 = true) :
    (stage3 T field).1 = 0 ∨ (stage3 T field).1 = T.minVal ∨ (stage3 T field).1 = T.maxVal := by
  unfold stage3 at h ⊢
  simp only at h ⊢
  by_cases h1 : ((splitSign field).2.isEmpty || !(splitSign field).2.all isdigit) = true
  · rw [if_pos h1]; left; rfl
  · rw [if_neg h1] at h ⊢
    by_cases h2 : T.isSigned = true
    · rw [if_pos h2] at h ⊢
      generalize (if (splitSign field).1 = true then -(digitsValue (splitSign field).2 : Int)
        else (digitsValue (splitSign field).2 : Int)) = v at h ⊢
      by_cases h3 : v < T.minVal
      · rw [if_pos h3]; right; left; rfl
      · rw [if_neg h3] at h ⊢
        by_cases h4 : T.maxVal < v
        · rw [if_pos h4]; right; right; rfl
        · rw [if_neg h4] at h
          simp at h
    · rw [if_neg h2] at h ⊢
      by_cases h3 : T.maxVal < (digitsValue (splitSign field).2 : Int)
      · rw [if_pos h3]; right; right; rfl
      · rw [if_neg h3] at h
        simp at h

/-! ## C4: what `str_to_num` leaves in the output when it fails -/

theorem stage3_nil (T : IntType) : stage3 T [] = (0, true) := by
  simp [stage3, splitSign]

theorem num_get_fail_val (loc : locale) (T : IntType) (q : List Char)
    (hg : loc.grouping = []) (h : (num_get loc T q).fail = true) :
    (num_get loc T q).val = 0 ∨ (num_get loc T q).val = T.minVal ∨
      (num_get loc T q).val = T.maxVal := by
  unfold num_get at h ⊢
  simp only at h ⊢
  have hs := stage2_seps_of_no_grouping loc hg q [] []
  simp only [groupingOk, hs, List.isEmpty_nil, Bool.true_or, Bool.not_true, Bool.or_false] at h
  exact stage3_fail_val T _ h

/-- C4 (as stated) fails: on `"abc"` with an `int` output holding `7`, `str_to_num` returns
`false` and the output no longer holds `7`. -/
theorem str_to_num_failure_overwrites :
    (str_to_num locale.classic .int32 "abc".toList 7).1 = false ∧
    (str_to_num locale.classic .int32 "abc".toList 7).2 ≠ 7 := by decide

/-- C4 (amended): in a locale without digit grouping, such as the classic locale, when
`str_to_num` returns `false` the output either still holds its initial value `x`, or holds
`0`, or holds the minimum or the maximum of the target type. -/
theorem str_to_num_failure_output (loc : locale) (T : IntType) (str : List Char) (x : Int)
    (hg : loc.grouping = []) (h : (str_to_num loc T str x).1 = false) :
    (str_to_num loc T str x).2 = x ∨ (str_to_num loc T str x).2 = 0 ∨
      (str_to_num loc T str x).2 = T.minVal ∨ (str_to_num loc T str x).2 = T.maxVal := by
  rw [str_to_num_eq] at h ⊢
  cases hq : extraction_start str with
  | nil => left; rfl
  | cons c r =>
    rw [hq] at h
    simp only at h ⊢
    by_cases hT : T.isChar = true
    · rw [if_pos hT] at h
      simp at h
    · rw [if_neg hT] at h ⊢
      simp only [Bool.not_eq_false_eq_eq_true, Bool.not_eq_eq_eq_not, Bool.not_false] at h
      right
      exact num_get_fail_val loc T (c :: r) hg h

/-- Witness for C4 (amended): the text `"abc"` with an `int` output holding `7`. -/
theorem str_to_num_failure_output_witness :
    locale.classic.grouping = [] ∧
    (str_to_num locale.classic .int32 "abc".toList 7).1 = false ∧
    ((str_to_num locale.classic .int32 "abc".toList 7).2 = 7 ∨
      (str_to_num locale.classic .int32 "abc".toList 7).2 = 0 ∨
      (str_to_num locale.classic .int32 "abc".toList 7).2 = IntType.int32.minVal ∨
      (str_to_num locale.classic .int32 "abc".toList 7).2 = IntType.int32.maxVal) :=
  ⟨rfl, by decide,
    str_to_num_failure_output locale.classic .int32 "abc".toList 7 rfl (by decide)⟩

/-! ## Characters after an integer numeral -/

/-- C8: the same text parsed to the same target type gives different values under two global
locales: `"1,234"` parses to `1` in the classic locale and to `1234` in a locale that groups
digits with a comma. -/
theorem str_to_num_locale_dependent :
    str_to_num locale.classic .int32 "1,234".toList 0 = (true, 1) ∧
    str_to_num locale.en_US .int32 "1,234".toList 0 = (true, 1234) := by decide

/-! ## C1, C2, C3: the character types -/

/-- C1: for the `int8_t` value `65`, `to_string` gives `"65"`, and `str_to_num` on that text
returns `true` with the output holding `54`, the code of the character `6`, not `65`. -/
theorem str_to_num_to_string_int8 :
    IntType.int8.inRange 65 ∧
    to_string .int8 65 "0".toList = "65".toList ∧
    str_to_num locale.classic .int8 (to_string .int8 65 "0".toList) 0 = (true, 54) := by
  decide

/-- C2: with an `int8_t` target, the text `" +42"` is parsed successfully to `52`, the code
of the character `4`, although `42` fits the type. -/
theorem str_to_num_int8_plus42 :
    IntType.int8.inRange 42 ∧
    str_to_num locale.classic .int8 " +42".toList 0 = (true, 52) := by decide

/-- C3: with an `int8_t` target, the text `"abc"` is parsed successfully, to `97`, the code
of the character `a`. -/
theorem str_to_num_int8_abc :
    str_to_num locale.classic .int8 "abc".toList 0 = (true, 97) := by decide

/-! ## The arithmetic targets: parsing decimal numerals -/

theorem dropWhile_isspace_append (w rest : List Char) (hw : ∀ c ∈ w, isspace c = true) :
    (w ++ rest).dropWhile isspace = rest.dropWhile isspace := by
  induction w with
  | nil => rfl
  | cons a w ih =>
    have ha := hw a (List.mem_cons_self _ _)
    simp only [List.cons_append, List.dropWhile_cons, ha, if_true]
    exact ih (fun c hc => hw c (List.mem_cons_of_mem _ hc))

theorem dropWhile_isspace_cons (c : Char) (r : List Char) (h : isspace c = false) :
    (c :: r).dropWhile isspace = c :: r := by
  simp [List.dropWhile_cons, h]

theorem skip_plus_of_ne (c : Char) (r : List Char) (h : c ≠ '+') :
    skip_plus (c :: r) = c :: r := by
  unfold skip_plus
  split
  · next h1 => simp at h1; exact absurd h1.1 h
  · rfl

theorem isspace_of_isdigit (c : Char) (h : isdigit c = true) : isspace c = false := by
  simp only [isdigit, Bool.and_eq_true, decide_eq_true_eq] at h
  simp only [isspace, Bool.or_eq_false_iff, Bool.and_eq_false_iff, beq_eq_false_iff_ne,
    decide_eq_false_iff_not]
  omega

theorem ne_plus_of_isdigit (c : Char) (h : isdigit c = true) : c ≠ '+' := by
  intro h0
  subst h0
  exact absurd h (by decide)

theorem ne_minus_of_isdigit (c : Char) (h : isdigit c = true) : c ≠ '-' := by
  intro h0
  subst h0
  exact absurd h (by decide)

theorem splitSign_of_digit (c : Char) (r : List Char) (h : isdigit c = true) :
    splitSign (c :: r) = (false, c :: r) := by
  unfold splitSign
  split
  · next h1 => simp at h1; exact absurd h1.1 (ne_minus_of_isdigit c h)
  · next h1 => simp at h1; exact absurd h1.1 (ne_plus_of_isdigit c h)
  · rfl

theorem extraction_start_of_head (c : Char) (r : List Char) (h1 : isspace c = false)
    (h2 : c ≠ '+') : extraction_start (c :: r) = c :: r := by
  unfold extraction_start
  rw [dropWhile_isspace_cons c r h1, skip_plus_of_ne c r h2, dropWhile_isspace_cons c r h1]

theorem minVal_nonpos (T : IntType) : T.minVal ≤ 0 := by cases T <;> decide

theorem maxVal_nonneg (T : IntType) : 0 ≤ T.maxVal := by cases T <;> decide

/-- Stage 3 on an unsigned digit sequence whose value is representable. -/
theorem stage3_digits (T : IntType) (c : Char) (r : List Char)
    (hall : ∀ e ∈ c :: r, isdigit e = true)
    (hmax : (digitsValue (c :: r) : Int) ≤ T.maxVal) :
    stage3 T (c :: r) = ((digitsValue (c :: r) : Int), false) := by
  have hc := hall c (List.mem_cons_self _ _)
  have hall2 : (c :: r).all isdigit = true := List.all_eq_true.2 hall
  have hmin := minVal_nonpos T
  unfold stage3
  rw [splitSign_of_digit c r hc]
  simp only [List.isEmpty_cons, hall2, Bool.not_true, Bool.or_false, Bool.false_eq_true,
    if_false]
  by_cases hs : T.isSigned = true
  · rw [if_pos hs, if_neg (by omega), if_neg (by omega)]
  · rw [if_neg hs, if_neg (by omega)]

/-- Stage 3 on a minus sign and a digit sequence, for a signed type that can represent the
negated value. -/
theorem stage3_minus_digits (T : IntType) (c : Char) (r : List Char) (hs : T.isSigned = true)
    (hall : ∀ e ∈ c :: r, isdigit e = true)
    (hmin : T.minVal ≤ -(digitsValue (c :: r) : Int)) :
    stage3 T ('-' :: c :: r) = (-(digitsValue (c :: r) : Int), false) := by
  have hall2 : (c :: r).all isdigit = true := List.all_eq_true.2 hall
  have hmax := maxVal_nonneg T
  unfold stage3
  simp only [splitSign, List.isEmpty_cons, hall2, Bool.not_true, Bool.or_false,
    Bool.false_eq_true, if_false, if_true]
  rw [if_pos hs, if_neg (by omega), if_neg (by omega)]

theorem classic_discard (c : Char) : locale.classic.discard c = false := by
  simp [locale.discard, locale.classic, locale.use_grouping]

theorem classic_point_of_isdigit (c : Char) (h : isdigit c = true) :
    (c == locale.classic.decimal_point) = false := by
  rw [beq_eq_false_iff_ne]
  intro h0
  rw [h0] at h
  exact absurd h (by decide)

theorem classic_point_minus : ¬ '-' = locale.classic.decimal_point := by decide

theorem classic_point_plus : ¬ '+' = locale.classic.decimal_point := by decide

/-- The arithmetic extraction, in the classic locale, of a digit sequence. -/
theorem num_get_digits (T : IntType) (c : Char) (r : List Char)
    (hall : ∀ e ∈ c :: r, isdigit e = true)
    (hmax : (digitsValue (c :: r) : Int) ≤ T.maxVal) :
    num_get locale.classic T (c :: r) = ⟨(digitsValue (c :: r) : Int), false, true, []⟩ := by
  have h2 := stage2_digits locale.classic (c :: r) [] []
    (fun e he => ⟨hall e he, classic_discard e, classic_point_of_isdigit e (hall e he)⟩)
  unfold num_get
  simp only [h2, List.nil_append, stage3_digits T c r hall hmax, groupingOk, List.isEmpty_nil,
    Bool.true_or, Bool.not_true, Bool.or_false]

/-- The arithmetic extraction, in the classic locale, of a minus sign and a digit sequence. -/
theorem num_get_minus_digits (T : IntType) (c : Char) (r : List Char) (hs : T.isSigned = true)
    (hall : ∀ e ∈ c :: r, isdigit e = true)
    (hmin : T.minVal ≤ -(digitsValue (c :: r) : Int)) :
    num_get locale.classic T ('-' :: c :: r) =
      ⟨-(digitsValue (c :: r) : Int), false, true, []⟩ := by
  have h2 := stage2_digits locale.classic (c :: r) ['-'] []
    (fun e he => ⟨hall e he, classic_discard e, classic_point_of_isdigit e (hall e he)⟩)
  have h1 : stage2 locale.classic ('-' :: c :: r) [] [] =
      stage2 locale.classic (c :: r) ['-'] [] := by
    rw [stage2]
    simp [classic_discard, allowed, classic_point_minus, classic_point_plus]
  unfold num_get
  rw [h1]
  simp only [h2, List.singleton_append, stage3_minus_digits T c r hs hall hmin, groupingOk,
    List.isEmpty_nil, Bool.true_or, Bool.not_true, Bool.or_false]

/-- For the arithmetic targets (16, 32 and 64 bits), in the classic locale: leading
whitespace, at most one `+`, then a nonempty sequence of decimal digits whose value fits the
type is parsed successfully to that value. -/
theorem str_to_num_digits_arith (T : IntType) (w ds : List Char) (plus : Bool) (x : Int)
    (hT : T.isChar = false) (hw : ∀ c ∈ w, isspace c = true) (hne : ds ≠ [])
    (hall : ∀ e ∈ ds, isdigit e = true) (hfit : T.inRange (digitsValue ds)) :
    str_to_num locale.classic T (w ++ (if plus then ['+'] else []) ++ ds) x =
      (true, (digitsValue ds : Int)) := by
  obtain ⟨c, r, rfl⟩ := List.exists_cons_of_ne_nil hne
  have hc := hall c (List.mem_cons_self _ _)
  have hstart : extraction_start (w ++ (if plus then ['+'] else []) ++ c :: r) = c :: r := by
    unfold extraction_start
    rw [List.append_assoc, dropWhile_isspace_append w _ hw]
    cases plus
    · simp only [Bool.false_eq_true, if_false, List.nil_append]
      exact extraction_start_of_head c r (isspace_of_isdigit c hc) (ne_plus_of_isdigit c hc)
    · simp only [if_true, List.singleton_append]
      rw [dropWhile_isspace_cons '+' _ (by decide)]
      simp only [skip_plus]
      exact dropWhile_isspace_cons c r (isspace_of_isdigit c hc)
  rw [str_to_num_eq, hstart]
  simp only [hT, Bool.false_eq_true, if_false, num_get_digits T c r hall hfit.2, Bool.not_false]

/-- For the arithmetic targets (16, 32 and 64 bits), in the classic locale, formatting and
parsing round-trip: parsing the text `to_string` returns for a value of the type gives that
value back. -/
theorem str_to_num_to_string_arith (T : IntType) (v : Int) (d : List Char) (x : Int)
    (hT : T.isChar = false) (hv : T.inRange v) :
    str_to_num locale.classic T (to_string T v d) x = (true, v) := by
  rw [to_string_eq_text T v d hv]
  have hall := all_isdigit_to_chars_digits v.natAbs
  have hval := digitsValue_to_chars_digits v.natAbs
  obtain ⟨c, r, hcr⟩ := List.exists_cons_of_ne_nil (to_chars_digits_ne_nil v.natAbs)
  rw [hcr] at hall hval
  have hc := hall c (List.mem_cons_self _ _)
  unfold to_chars_text
  rw [hcr]
  by_cases hneg : v < 0
  · have hs : T.isSigned = true := by
      cases hsg : T.isSigned with
      | true => rfl
      | false =>
        have := hv.1
        simp only [IntType.minVal, hsg, Bool.false_eq_true, if_false] at this
        omega
    have hvn : -(digitsValue (c :: r) : Int) = v := by rw [hval]; omega
    rw [if_pos hneg, List.singleton_append, str_to_num_eq,
      extraction_start_of_head '-' _ (by decide) (by decide)]
    simp only [hT, Bool.false_eq_true, if_false]
    rw [num_get_minus_digits T c r hs hall (by rw [hvn]; exact hv.1), hvn]
    rfl
  · have hvn : (digitsValue (c :: r) : Int) = v := by rw [hval]; omega
    rw [if_neg hneg, List.nil_append, str_to_num_eq,
      extraction_start_of_head c r (isspace_of_isdigit c hc) (ne_plus_of_isdigit c hc)]
    simp only [hT, Bool.false_eq_true, if_false]
    rw [num_get_digits T c r hall (by rw [hvn]; exact hv.2), hvn]
    rfl

/-- For the arithmetic targets (16, 32 and 64 bits), in the classic locale: the text is
rejected when nothing follows the leading whitespace and the optional `+`, or when the
first character after them is not whitespace, a sign or a decimal digit. -/
theorem str_to_num_rejects_arith (T : IntType) (w : List Char) (plus : Bool) (c : Char)
    (rest : List Char) (x : Int) (hT : T.isChar = false) (hw : ∀ e ∈ w, isspace e = true)
    (hc1 : isdigit c = false) (hc2 : isspace c = false) (hc3 : c ≠ '+') (hc4 : c ≠ '-') :
    (str_to_num locale.classic T (w ++ (if plus then ['+'] else [])) x).1 = false ∧
    (str_to_num locale.classic T (w ++ (if plus then ['+'] else []) ++ c :: rest) x).1
      = false := by
  have hallow : allowed c [] = false := by
    simp [allowed, hc1, hc3, hc4]
  have hng : (num_get locale.classic T (c :: rest)).fail = true := by
    unfold num_get
    simp [stage2, classic_discard, hallow, stage3_nil]
  constructor
  · rw [str_to_num_eq]
    have : extraction_start (w ++ (if plus then ['+'] else [])) = [] := by
      unfold extraction_start
      rw [dropWhile_isspace_append w _ hw]
      cases plus <;> simp [skip_plus, List.dropWhile]
    rw [this]
  · rw [str_to_num_eq]
    have : extraction_start (w ++ (if plus then ['+'] else []) ++ c :: rest) = c :: rest := by
      unfold extraction_start
      rw [List.append_assoc, dropWhile_isspace_append w _ hw]
      cases plus
      · simp only [Bool.false_eq_true, if_false, List.nil_append]
        exact extraction_start_of_head c rest hc2 hc3
      · simp only [if_true, List.singleton_append]
        rw [dropWhile_isspace_cons '+' _ (by decide)]
        simp only [skip_plus]
        exact dropWhile_isspace_cons c rest hc2
    rw [this]
    simp only [hT, Bool.false_eq_true, if_false, hng, Bool.not_true]

/-! ## C11: `contains` -/

theorem find_le_length {α β : Type} (eq : α → β → Bool) (c : List α) (e : β) :
    find eq c e ≤ c.length := by
  induction c with
  | nil => simp [find]
  | cons x xs ih =>
    simp only [find, List.length_cons]
    split
    · omega
    · omega

/-- The search reaches the end exactly when no element compares equal to the value. -/
theorem find_eq_length_iff {α β : Type} (eq : α → β → Bool) (c : List α) (e : β) :
    find eq c e = c.length ↔ ∀ x ∈ c, eq x e = false := by
  induction c with
  | nil => simp [find]
  | cons x xs ih =>
    simp only [find, List.length_cons, List.mem_cons, forall_eq_or_imp]
    by_cases hx : eq x e = true
    · simp [hx]
    · simp only [hx, Bool.false_eq_true, if_false, Nat.add_right_cancel_iff, ih]
      simp [Bool.not_eq_true _ ▸ hx]

/-- C11: `contains c e` returns `true` if and only if some element of the container `c`
compares equal to `e`; on an empty container it returns `false` for every `e`. -/
theorem contains_iff_exists {α β : Type} (eq : α → β → Bool) (c : List α) (e : β) :
    (contains eq c e = true ↔ ∃ x ∈ c, eq x e = true) ∧ contains eq ([] : List α) e = false := by
  refine ⟨?_, rfl⟩
  unfold contains
  rw [bne_iff_ne, Ne, find_eq_length_iff]
  constructor
  · intro h
    by_contra hne
    apply h
    intro x hx
    cases hxe : eq x e with
    | false => rfl
    | true => exact absurd ⟨x, hx, hxe⟩ hne
  · rintro ⟨x, hx, hxe⟩ h
    rw [h x hx] at hxe
    exact Bool.noConfusion hxe

/-! ## C12: the order in which `concat_vectors` joins -/

/-- C12: for all `v1` and `v2`, when `v1` is strictly longer the result of `concat_vectors`
is `v1` followed by `v2`; otherwise, equal sizes included, it is `v2` followed by `v1`. -/
theorem concat_vectors_order {α : Type} (v1 v2 : List α) :
    (v1.length > v2.length → concat_vectors v1 v2 = v1 ++ v2) ∧
    (v1.length ≤ v2.length → concat_vectors v1 v2 = v2 ++ v1) := by
  unfold concat_vectors
  constructor
  · intro h
    rw [if_pos h]
  · intro h
    rw [if_neg (by omega)]

/-- Witness for C12: a longer first vector, and two vectors of equal size. -/
theorem concat_vectors_order_witness :
    ([1, 2] : List Nat).length > [3].length ∧
    concat_vectors [1, 2] [3] = [1, 2, 3] ∧
    ([1] : List Nat).length ≤ [2].length ∧
    concat_vectors [1] [2] = [2, 1] :=
  ⟨by decide, (concat_vectors_order [1, 2] [3]).1 (by decide), by decide,
    (concat_vectors_order [1] [2]).2 (by decide)⟩

/-! ## C15: the two floors agree with the conversion formula -/

/-- C15: with the constants at the decimal values written in their literals,
`10 ^ (minimum_db_level / 20) = minimum_linear_level` (that is `10⁻⁵ = 0.00001`) and
`20 * log10 minimum_linear_level = minimum_db_level` in exact real arithmetic, and the
`float` and `double` constants are written with the same decimal values. -/
theorem floors_consistent :
    (10 : ℝ) ^ ((minimum_db_level_decimal : ℝ) / 20) = (minimum_linear_level_decimal : ℝ) ∧
    20 * Real.logb 10 (minimum_linear_level_decimal : ℝ) = (minimum_db_level_decimal : ℝ) ∧
    (10 : ℝ) ^ ((minimum_db_d_level_decimal : ℝ) / 20) = (minimum_linear_d_level_decimal : ℝ) ∧
    20 * Real.logb 10 (minimum_linear_d_level_decimal : ℝ) = (minimum_db_d_level_decimal : ℝ) ∧
    minimum_db_level_decimal = minimum_db_d_level_decimal ∧
    minimum_linear_level_decimal = minimum_linear_d_level_decimal ∧
    minimum_db_level_decimal = -100 ∧
    minimum_linear_level_decimal = 1 / 100000 := by
  have hpow : (10 : ℝ) ^ ((-100 : ℝ) / 20) = 1 / 100000 := by
    rw [show ((-100 : ℝ) / 20) = ((-5 : ℤ) : ℝ) by norm_num, Real.rpow_intCast]
    norm_num
  have hlog : 20 * Real.logb 10 ((1 : ℝ) / 100000) = -100 := by
    rw [← hpow, Real.logb_rpow (by norm_num) (by norm_num)]
    norm_num
  have hdb : ((minimum_db_level_decimal : ℚ) : ℝ) = -100 := by
    unfold minimum_db_level_decimal; norm_num
  have hlin : ((minimum_linear_level_decimal : ℚ) : ℝ) = 1 / 100000 := by
    unfold minimum_linear_level_decimal; norm_num
  have hdbd : ((minimum_db_d_level_decimal : ℚ) : ℝ) = -100 := by
    unfold minimum_db_d_level_decimal; norm_num
  have hlind : ((minimum_linear_d_level_decimal : ℚ) : ℝ) = 1 / 100000 := by
    unfold minimum_linear_d_level_decimal; norm_num
  refine ⟨?_, ?_, ?_, ?_, rfl, rfl, ?_, ?_⟩
  · rw [hdb, hlin]; exact hpow
  · rw [hdb, hlin]; exact hlog
  · rw [hdbd, hlind]; exact hpow
  · rw [hdbd, hlind]; exact hlog
  · unfold minimum_db_level_decimal; norm_num
  · unfold minimum_linear_level_decimal; norm_num

/-- As IEEE values the two linear floors are not the decimal `0.00001`: the `float` constant
lies below it and the `double` constant above it. -/
theorem linear_floors_rounded :
    minimum_linear_level = .finite (10995116 / 2 ^ 40) ∧
    (10995116 / 2 ^ 40 : ℚ) < minimum_linear_level_decimal ∧
    minimum_linear_d_level = .finite (5902958103587057 / 2 ^ 69) ∧
    minimum_linear_d_level_decimal < (5902958103587057 / 2 ^ 69 : ℚ) := by
  refine ⟨rfl, ?_, rfl, ?_⟩
  · unfold minimum_linear_level_decimal; norm_num
  · unfold minimum_linear_d_level_decimal; norm_num

/-! ## Signs and out-of-range numerals, for the arithmetic targets -/

theorem extraction_start_prefixed (w : List Char) (plus : Bool) (a : Char) (r : List Char)
    (hw : ∀ e ∈ w, isspace e = true) (ha : isspace a = false) (hp : a ≠ '+') :
    extraction_start (w ++ (if plus then ['+'] else []) ++ a :: r) = a :: r := by
  unfold extraction_start
  rw [List.append_assoc, dropWhile_isspace_append w _ hw]
  cases plus
  · simp only [Bool.false_eq_true, if_false, List.nil_append]
    exact extraction_start_of_head a r ha hp
  · simp only [if_true, List.singleton_append]
    rw [dropWhile_isspace_cons '+' _ (by decide)]
    simp only [skip_plus]
    exact dropWhile_isspace_cons a r ha

/-- After one `+` the extraction starts at the first character that is not whitespace,
whatever that character is. -/
theorem extraction_start_plus (w : List Char) (a : Char) (r : List Char)
    (hw : ∀ e ∈ w, isspace e = true) (ha : isspace a = false) :
    extraction_start ('+' :: (w ++ a :: r)) = a :: r := by
  unfold extraction_start
  rw [dropWhile_isspace_cons '+' _ (by decide)]
  simp only [skip_plus]
  rw [dropWhile_isspace_append w _ hw]
  exact dropWhile_isspace_cons a r ha

theorem stage3_plus_digits (T : IntType) (c : Char) (r : List Char)
    (hall : ∀ e ∈ c :: r, isdigit e = true)
    (hmax : (digitsValue (c :: r) : Int) ≤ T.maxVal) :
    stage3 T ('+' :: c :: r) = ((digitsValue (c :: r) : Int), false) := by
  have hall2 : (c :: r).all isdigit = true := List.all_eq_true.2 hall
  have hmin := minVal_nonpos T
  unfold stage3
  simp only [splitSign, List.isEmpty_cons, hall2, Bool.not_true, Bool.or_false,
    Bool.false_eq_true, if_false]
  by_cases hs : T.isSigned = true
  · rw [if_pos hs, if_neg (by omega), if_neg (by omega)]
  · rw [if_neg hs, if_neg (by omega)]

/-- The arithmetic extraction, in the classic locale, of a plus sign and a digit sequence. -/
theorem num_get_plus_digits (T : IntType) (c : Char) (r : List Char)
    (hall : ∀ e ∈ c :: r, isdigit e = true)
    (hmax : (digitsValue (c :: r) : Int) ≤ T.maxVal) :
    num_get locale.classic T ('+' :: c :: r) =
      ⟨(digitsValue (c :: r) : Int), false, true, []⟩ := by
  have h2 := stage2_digits locale.classic (c :: r) ['+'] []
    (fun e he => ⟨hall e he, classic_discard e, classic_point_of_isdigit e (hall e he)⟩)
  have h1 : stage2 locale.classic ('+' :: c :: r) [] [] =
      stage2 locale.classic (c :: r) ['+'] [] := by
    rw [stage2]
    simp [classic_discard, allowed, classic_point_minus, classic_point_plus]
  unfold num_get
  rw [h1]
  simp only [h2, List.singleton_append, stage3_plus_digits T c r hall hmax, groupingOk,
    List.isEmpty_nil, Bool.true_or, Bool.not_true, Bool.or_false]

/-- Two signs in a row cannot be converted: the field is the first sign alone. -/
theorem num_get_plus_plus (T : IntType) (rest : List Char) :
    (num_get locale.classic T ('+' :: '+' :: rest)).fail = true := by
  have h1 : stage2 locale.classic ('+' :: '+' :: rest) [] [] =
      ⟨['+'], [], false, '+' :: rest⟩ := by
    have hd : isdigit '+' = false := by decide
    simp [stage2, classic_discard, allowed, hd, classic_point_plus]
  unfold num_get
  rw [h1]
  simp [stage3, splitSign]

/-- A digit sequence above the maximum of the type is clamped and `failbit` is assigned. -/
theorem stage3_digits_too_large (T : IntType) (c : Char) (r : List Char)
    (hall : ∀ e ∈ c :: r, isdigit e = true)
    (hbig : T.maxVal < (digitsValue (c :: r) : Int)) :
    stage3 T (c :: r) = (T.maxVal, true) := by
  have hc := hall c (List.mem_cons_self _ _)
  have hall2 : (c :: r).all isdigit = true := List.all_eq_true.2 hall
  have hmin := minVal_nonpos T
  unfold stage3
  rw [splitSign_of_digit c r hc]
  simp only [List.isEmpty_cons, hall2, Bool.not_true, Bool.or_false, Bool.false_eq_true,
    if_false]
  by_cases hs : T.isSigned = true
  · rw [if_pos hs, if_neg (by omega), if_pos hbig]
  · rw [if_neg hs, if_pos hbig]

/-- A negative numeral below the minimum of a signed type is clamped and `failbit` is
assigned. -/
theorem stage3_minus_too_small (T : IntType) (c : Char) (r : List Char)
    (hs : T.isSigned = true) (hall : ∀ e ∈ c :: r, isdigit e = true)
    (hsmall : -(digitsValue (c :: r) : Int) < T.minVal) :
    stage3 T ('-' :: c :: r) = (T.minVal, true) := by
  have hall2 : (c :: r).all isdigit = true := List.all_eq_true.2 hall
  unfold stage3
  simp only [splitSign, List.isEmpty_cons, hall2, Bool.not_true, Bool.or_false,
    Bool.false_eq_true, if_false, if_true]
  rw [if_pos hs, if_pos hsmall]

/-- For the arithmetic targets (16, 32 and 64 bits), in the classic locale: a decimal numeral
above the maximum of the type is rejected, and so is a negative numeral below the minimum of
a signed type. -/
theorem str_to_num_out_of_range_arith (T : IntType) (w : List Char) (plus : Bool) (c : Char)
    (r : List Char) (x : Int) (hT : T.isChar = false) (hw : ∀ e ∈ w, isspace e = true)
    (hall : ∀ e ∈ c :: r, isdigit e = true) :
    (T.maxVal < (digitsValue (c :: r) : Int) →
      (str_to_num locale.classic T (w ++ (if plus then ['+'] else []) ++ c :: r) x).1
        = false) ∧
    (T.isSigned = true → -(digitsValue (c :: r) : Int) < T.minVal →
      (str_to_num locale.classic T (w ++ (if plus then ['+'] else []) ++ '-' :: c :: r) x).1
        = false) := by
  have hc := hall c (List.mem_cons_self _ _)
  constructor
  · intro hbig
    rw [str_to_num_eq, extraction_start_prefixed w plus c r hw (isspace_of_isdigit c hc)
      (ne_plus_of_isdigit c hc)]
    have hf : (num_get locale.classic T (c :: r)).fail = true := by
      unfold num_get
      simp only [stage2_digits locale.classic (c :: r) [] []
        (fun e he => ⟨hall e he, classic_discard e, classic_point_of_isdigit e (hall e he)⟩), List.nil_append,
        stage3_digits_too_large T c r hall hbig, Bool.true_or]
    simp only [hT, Bool.false_eq_true, if_false, hf, Bool.not_true]
  · intro hs hsmall
    rw [str_to_num_eq, extraction_start_prefixed w plus '-' (c :: r) hw (by decide)
      (by decide)]
    have h1 : stage2 locale.classic ('-' :: c :: r) [] [] =
        stage2 locale.classic (c :: r) ['-'] [] := by
      rw [stage2]
      simp [classic_discard, allowed, classic_point_minus, classic_point_plus]
    have hf : (num_get locale.classic T ('-' :: c :: r)).fail = true := by
      unfold num_get
      rw [h1]
      simp only [stage2_digits locale.classic (c :: r) ['-'] []
        (fun e he => ⟨hall e he, classic_discard e, classic_point_of_isdigit e (hall e he)⟩), List.singleton_append,
        stage3_minus_too_small T c r hs hall hsmall, Bool.true_or]
    simp only [hT, Bool.false_eq_true, if_false, hf, Bool.not_true]

/-! ## C13: numerals outside the range of the target -/

/-- C13: with a `uint32_t` target the text `"-1"`, whose value is below the minimum `0` of
the type, is parsed successfully, to the wrapped value `4294967295`; and with an `int8_t`
target the text `"300"`, whose value is above the maximum `127`, is parsed successfully, to
`51`, the code of the character `3`. -/
theorem str_to_num_out_of_range_accepted :
    ¬ IntType.uint32.inRange (-1) ∧
    str_to_num locale.classic .uint32 "-1".toList 0 = (true, 4294967295) ∧
    ¬ IntType.int8.inRange 300 ∧
    str_to_num locale.classic .int8 "300".toList 0 = (true, 51) := by decide

/-! ## C14: what the extraction accepts after the skipped `+` -/

/-- C14 (as stated) fails: `5` is a value of `uint32_t`, but the text `"+-5"` parsed to a
`uint32_t` does not give `-5`; it is accepted with the wrapped value `4294967291`. -/
theorem str_to_num_plus_minus_unsigned :
    IntType.uint32.inRange 5 ∧
    str_to_num locale.classic .uint32 "+-5".toList 0 = (true, 4294967291) ∧
    str_to_num locale.classic .uint32 "+-5".toList 0 ≠ (true, -5) := by decide

/-- C14 (amended): in the classic locale, for every 16-, 32- or 64-bit integer target and
every `n ≥ 0` in its range, with `ds` the decimal digits of `n`: the text `"+-" ++ ds` parses
successfully to `-n` when the target is signed; `"++" ++ ds` and `"+"`, whitespace, `ds`
parse successfully to `n`; and `"+++" ++ ds` is rejected. -/
theorem str_to_num_after_plus (T : IntType) (n : Nat) (w : List Char) (x : Int)
    (hT : T.isChar = false) (hn : T.inRange (n : Int)) (hw : ∀ e ∈ w, isspace e = true) :
    (T.isSigned = true →
      str_to_num locale.classic T ('+' :: '-' :: to_chars_digits (n + 1) n []) x
        = (true, -(n : Int))) ∧
    str_to_num locale.classic T ('+' :: '+' :: to_chars_digits (n + 1) n []) x
      = (true, (n : Int)) ∧
    str_to_num locale.classic T ('+' :: (w ++ to_chars_digits (n + 1) n [])) x
      = (true, (n : Int)) ∧
    (str_to_num locale.classic T ('+' :: '+' :: '+' :: to_chars_digits (n + 1) n []) x).1
      = false := by
  have hall := all_isdigit_to_chars_digits n
  have hval := digitsValue_to_chars_digits n
  obtain ⟨c, r, hcr⟩ := List.exists_cons_of_ne_nil (to_chars_digits_ne_nil n)
  rw [hcr] at hall hval ⊢
  have hc := hall c (List.mem_cons_self _ _)
  have hmax : (digitsValue (c :: r) : Int) ≤ T.maxVal := by rw [hval]; exact hn.2
  refine ⟨fun hs => ?_, ?_, ?_, ?_⟩
  · have hmin : T.minVal ≤ -(digitsValue (c :: r) : Int) := by
      rw [hval]
      have h1 := hn.2
      have h2 : T.minVal = -T.maxVal - 1 := by
        simp only [IntType.minVal, IntType.maxVal, hs, if_true]
        omega
      omega
    have := extraction_start_plus [] '-' (c :: r) (by simp) (by decide)
    rw [List.nil_append] at this
    rw [str_to_num_eq, this]
    simp only [hT, Bool.false_eq_true, if_false]
    rw [num_get_minus_digits T c r hs hall hmin, hval]
    rfl
  · have := extraction_start_plus [] '+' (c :: r) (by simp) (by decide)
    rw [List.nil_append] at this
    rw [str_to_num_eq, this]
    simp only [hT, Bool.false_eq_true, if_false]
    rw [num_get_plus_digits T c r hall hmax, hval]
    rfl
  · rw [str_to_num_eq, extraction_start_plus w c r hw (isspace_of_isdigit c hc)]
    simp only [hT, Bool.false_eq_true, if_false]
    rw [num_get_digits T c r hall hmax, hval]
    rfl
  · have := extraction_start_plus [] '+' ('+' :: c :: r) (by simp) (by decide)
    rw [List.nil_append] at this
    rw [str_to_num_eq, this]
    simp only [hT, Bool.false_eq_true, if_false, num_get_plus_plus T (c :: r), Bool.not_true]

/-- Witness for C14 (amended): an `int` target and `n = 5`. -/
theorem str_to_num_after_plus_witness :
    IntType.int32.isChar = false ∧ IntType.int32.inRange ((5 : Nat) : Int) ∧
    IntType.int32.isSigned = true ∧
    str_to_num locale.classic .int32 "+-5".toList 0 = (true, -5) ∧
    str_to_num locale.classic .int32 "++5".toList 0 = (true, 5) ∧
    str_to_num locale.classic .int32 "+ 5".toList 0 = (true, 5) ∧
    (str_to_num locale.classic .int32 "+++5".toList 0).1 = false :=
  have h := str_to_num_after_plus .int32 5 [' '] 0 rfl (by decide) (by decide)
  ⟨rfl, by decide, rfl, h.1 rfl, h.2.1, h.2.2.1, h.2.2.2⟩

/-! ## The floating-point targets -/

/-- The result of `str_to_num` for a floating-point target in terms of the text at which the
extraction starts. -/
theorem str_to_num_fp_eq (loc : locale) (F : FloatType) (str : List Char) (num : FP) :
    str_to_num_fp loc F str num =
      match extraction_start str with
      | [] => (false, num)
      | c :: r =>
        (!(num_get_float loc F (c :: r)).fail, (num_get_float loc F (c :: r)).val) := by
  unfold str_to_num_fp extraction_start
  cases hs : str.dropWhile isspace with
  | nil =>
    simp [istringstream.ofString, istringstream.ws, istringstream.good, hs, istringstream.peek,
      extract_float, istringstream.sentry, istringstream.fail, skip_plus]
  | cons a s =>
    by_cases ha : a = '+'
    · subst ha
      cases hr : s.dropWhile isspace with
      | nil =>
        simp [istringstream.ofString, istringstream.ws, istringstream.good, hs,
          istringstream.peek, istringstream.ignore, extract_float,
          istringstream.sentry, istringstream.fail, skip_plus, hr]
      | cons c r =>
        simp [istringstream.ofString, istringstream.ws, istringstream.good, hs,
          istringstream.peek, istringstream.ignore, extract_float,
          istringstream.sentry, istringstream.fail, skip_plus, hr]
        cases (num_get_float loc F (c :: r)).fail <;> simp
    · have hsp : skip_plus (a :: s) = a :: s := skip_plus_of_ne a s ha
      have hns : isspace a = false := by
        have := List.head_dropWhile_not isspace str (by rw [hs]; simp)
        simpa [hs] using this
      have hd : (a :: s).dropWhile isspace = a :: s := dropWhile_isspace_cons a s hns
      rw [hsp, hd]
      simp [istringstream.ofString, istringstream.ws, istringstream.good, hs,
        istringstream.peek, istringstream.ignore, extract_float,
        istringstream.sentry, istringstream.fail, hd, ha]
      cases (num_get_float loc F (a :: s)).fail <;> simp

/-- Under a locale that groups digits by three with a comma: a leading or a repeated
separator ends the extraction with zero stored, and a misplaced separator makes the
extraction fail with the converted number stored.  A first group size of zero means that
grouping is not in use. -/
theorem str_to_num_grouping_examples :
    str_to_num locale.en_US .int32 ",123".toList 7 = (false, 0) ∧
    str_to_num locale.en_US .int32 "1,,234".toList 7 = (false, 0) ∧
    str_to_num locale.en_US .int32 "1,23".toList 7 = (false, 123) ∧
    str_to_num locale.en_US .int32 "12,345,678".toList 7 = (true, 12345678) ∧
    str_to_num ⟨',', [0], '.'⟩ .int32 "1,234".toList 7 = (true, 1) := by decide

/-- A text without a number is rejected by the floating-point extraction, which stores
zero; an empty text leaves the output as it was. -/
theorem str_to_num_fp_rejects :
    str_to_num_fp locale.classic .double "abc".toList (.finite 7) = (false, .finite 0) ∧
    str_to_num_fp locale.classic .double "".toList (.finite 7) = (false, .finite 7) := by
  constructor
  · have hs : extraction_start "abc".toList = "abc".toList := by decide
    have hf : float_scan locale.classic .sign ⟨[], false, false, false, 0, []⟩ "abc".toList =
        ⟨⟨[], false, false, false, 0, []⟩, false, "abc".toList⟩ := by decide
    have hd : parse_decimal [] = none := by decide
    rw [str_to_num_fp_eq, hs]
    show (!(num_get_float locale.classic .double "abc".toList).fail,
      (num_get_float locale.classic .double "abc".toList).val) = _
    simp only [num_get_float, hf, stage3_float, hd, Bool.true_or, Bool.not_true]
  · rw [str_to_num_fp_eq]
    rfl

end util
